import Mathlib

/-!
Verification of the route-scoring and spatial-matching pipeline of the
pediatric-asthma clean-route planner (src/app.py).

Python floats are modelled as rationals (ℚ), calendar dates as natural
numbers, and every external HTTP adapter (Geoapify routing/places, AirNow
observation/forecast, shapely geometry, `strptime`) as an explicit function
or response parameter: a `none`/`Option.none` response models a raised or
undecodable request, mirroring the `try`/`except` structure of the source.
-/

open List

/-- A WGS84 coordinate `(lat, lon)`; Python float pairs modelled as ℚ × ℚ. -/
abbrev Coord := ℚ × ℚ

/-- Downsampling of a route polyline, from `sample_points` in src/app.py:
if the polyline has at most `max_samples` points it is returned unchanged;
otherwise `step = max 1 (len // max_samples)` and the comprehension
`[coords[i] for i in range(0, len(coords), step)][:max_samples]` keeps
exactly the elements whose index is divisible by `step`, in order, then
truncates to `max_samples`. -/
def sample_points {α : Type*} (coords : List α) (max_samples : Nat) : List α :=
  if coords.length ≤ max_samples then coords
  else
    let step := max 1 (coords.length / max_samples)
    ((coords.enum.filter fun p => p.1 % step == 0).map Prod.snd).take max_samples

lemma sample_points_of_length_le {α : Type*} (coords : List α) (m : Nat)
    (h : coords.length ≤ m) : sample_points coords m = coords := by
  simp [sample_points, h]

lemma sample_points_sublist {α : Type*} (coords : List α) (m : Nat) :
    sample_points coords m <+ coords := by
  unfold sample_points
  split
  · exact List.Sublist.refl _
  · refine (List.take_sublist _ _).trans ?_
    have h1 : (coords.enum.filter fun p => p.1 % max 1 (coords.length / m) == 0)
        <+ coords.enum := List.filter_sublist _
    have h2 := h1.map Prod.snd
    rwa [List.enum_map_snd] at h2

/-- The indices kept by the index-filter over `enumFrom` are in bijection with
the filtered index range, so the lengths agree. -/
lemma length_filter_enumFrom {α : Type*} (f : Nat → Bool) :
    ∀ (l : List α) (k : Nat),
      ((l.enumFrom k).filter fun p => f p.1).length
        = ((List.range' k l.length).filter f).length := by
  intro l
  induction l with
  | nil => intro k; simp
  | cons a t ih =>
    intro k
    simp only [List.enumFrom_cons, List.length_cons, List.range'_succ]
    by_cases hf : f k
    · simp [List.filter_cons, hf, ih]
    · simp [List.filter_cons, hf, ih]

/-- Number of multiples of `s` in `range n` is `⌈n / s⌉ = (n + s - 1) / s`. -/
lemma length_filter_mod_range (s : Nat) (hs : 0 < s) :
    ∀ n : Nat, ((List.range n).filter fun i => i % s == 0).length = (n + s - 1) / s := by
  intro n
  induction n with
  | zero =>
    have h0 : 0 + s - 1 = s - 1 := by omega
    rw [List.range_zero, h0, Nat.div_eq_of_lt (by omega)]
    simp
  | succ n ih =>
    rw [List.range_succ, List.filter_append, List.length_append, ih]
    have h2 : n + 1 + s - 1 = n + s - 1 + 1 := by omega
    have h3 : n + s - 1 + 1 = n + s := by omega
    by_cases h : n % s = 0
    · have hdvd : s ∣ n + s - 1 + 1 := by
        rw [h3, Nat.add_comm]
        exact Nat.dvd_add dvd_rfl (Nat.dvd_of_mod_eq_zero h)
      rw [h2, Nat.succ_div_of_dvd hdvd]
      simp [h]
    · have hndvd : ¬ s ∣ n + s - 1 + 1 := by
        rw [h3, Nat.add_comm]
        intro hc
        have hd : s ∣ n := (Nat.dvd_add_right (dvd_refl s)).mp hc
        obtain ⟨k, hk⟩ := hd
        exact h (by rw [hk]; exact Nat.mul_mod_right s k)
      rw [h2, Nat.succ_div_of_not_dvd hndvd]
      simp [h]

lemma sample_points_length {α : Type*} (coords : List α) (m : Nat)
    (h : m < coords.length) : (sample_points coords m).length = m := by
  have hnle : ¬ coords.length ≤ m := not_le.mpr h
  unfold sample_points
  rw [if_neg hnle]
  set s := max 1 (coords.length / m) with hs
  have hs0 : 0 < s := by positivity
  rw [List.length_take, List.length_map]
  have hcount : ((coords.enum.filter fun p => p.1 % s == 0)).length
      = (coords.length + s - 1) / s := by
    have henum : coords.enum = coords.enumFrom 0 := rfl
    rw [henum, length_filter_enumFrom (fun i => i % s == 0) coords 0,
      ← List.range_eq_range', length_filter_mod_range s hs0]
  rw [hcount]
  rcases Nat.eq_zero_or_pos m with hm0 | hm
  · simp [hm0]
  · have hsm : coords.length / m * m ≤ coords.length := Nat.div_mul_le_self _ _
    have hseq : s = coords.length / m := by
      rw [hs]
      exact max_eq_right ((Nat.one_le_div_iff hm).mpr (le_of_lt h))
    have hms : m * s ≤ coords.length := by
      rw [hseq, Nat.mul_comm]; exact hsm
    have hle : m ≤ (coords.length + s - 1) / s := by
      rw [Nat.le_div_iff_mul_le hs0]
      omega
    omega

/-- C1: `sample_points` (budget 10 by default in the source) returns any
polyline with at most `m` points unchanged; a longer polyline is reduced to
exactly `m` points that form a sublist of the input, i.e. each returned point
is an element of the input and the original order is kept; the function is a
pure function of its input, hence deterministic. -/
theorem c1_sample_points_downsampling (coords : List Coord) (m : Nat) :
    (coords.length ≤ m → sample_points coords m = coords) ∧
    (m < coords.length →
      (sample_points coords m).length = m ∧ sample_points coords m <+ coords) :=
  ⟨fun h => sample_points_of_length_le coords m h,
   fun h => ⟨sample_points_length coords m h, sample_points_sublist coords m⟩⟩

/-- A two-point polyline, within the default budget of 10. -/
def c1Short : List Coord := [(0, 0), (1, 1)]

/-- A five-point polyline, above a budget of 2. -/
def c1Long : List Coord := [(0, 0), (1, 1), (2, 2), (3, 3), (4, 4)]

theorem c1_sample_points_downsampling_witness :
    sample_points c1Short 10 = c1Short ∧
    (sample_points c1Long 2).length = 2 ∧ sample_points c1Long 2 <+ c1Long :=
  ⟨(c1_sample_points_downsampling c1Short 10).1 (by decide),
   ((c1_sample_points_downsampling c1Long 2).2 (by decide)).1,
   ((c1_sample_points_downsampling c1Long 2).2 (by decide)).2⟩

/-- Arithmetic mean of a list of integers as a rational (`statistics.mean`). -/
def listMean (l : List Int) : ℚ := (l.map (fun a => (a : ℚ))).sum / l.length

/-- Maximum of a nonempty integer list, Python `max(aqis)` (the `[]` case is
never reached in `score_route`, which returns `None` first). -/
def listMax : List Int → Int
  | [] => 0
  | h :: t => t.foldl max h

/-- Modelled from the spec: `urllib.parse.quote_plus`, the URL-encoding of the
endpoint labels used to build the Google-Maps deep link (an external stdlib
routine absent from src/; spaces become `+`; no claim depends on its output). -/
def quote_plus (s : String) : String :=
  String.map (fun c => if c = ' ' then '+' else c) s

/-- `RouteScore` dataclass from src/app.py. -/
structure RouteScore where
  name : String
  distance_km : ℚ
  duration_min : ℚ
  avg_aqi : ℚ
  max_aqi : Int
  num_samples : Nat
  maps_url : String
  coords : List Coord
deriving DecidableEq, Repr

/-- `score_route` from src/app.py: downsample the polyline with budget 10,
look up the AQI at each sampled point through the AirNow adapter `aqi_at`
(a `none` result models a failed or data-free lookup and is dropped, with no
retry), return `none` when no sample succeeds, and otherwise aggregate the
mean and maximum of the successful samples into a `RouteScore`. -/
def score_route (aqi_at : Coord → Option Int) (coords : List Coord)
    (origin_label dest_label name : String) (distance_m duration_s : ℚ) :
    Option RouteScore :=
  let pts := sample_points coords 10
  let aqis := pts.filterMap aqi_at
  if aqis = [] then none
  else some
    { name := name
      distance_km := distance_m / 1000
      duration_min := duration_s / 60
      avg_aqi := listMean aqis
      max_aqi := listMax aqis
      num_samples := aqis.length
      maps_url := "https://www.google.com/maps/dir/" ++ quote_plus origin_label
        ++ "/" ++ quote_plus dest_label
      coords := coords }

/-- C2: `score_route` returns `none` exactly when zero pollution samples
succeed (failed lookups being dropped), and a returned score carries the
arithmetic mean and the maximum of the successful samples. -/
theorem c2_score_route_aggregation (aqi_at : Coord → Option Int)
    (coords : List Coord) (o d n : String) (dm ds : ℚ) :
    (score_route aqi_at coords o d n dm ds = none ↔
      (sample_points coords 10).filterMap aqi_at = []) ∧
    (∀ s, score_route aqi_at coords o d n dm ds = some s →
      s.avg_aqi = listMean ((sample_points coords 10).filterMap aqi_at) ∧
      s.max_aqi = listMax ((sample_points coords 10).filterMap aqi_at) ∧
      s.num_samples = ((sample_points coords 10).filterMap aqi_at).length) := by
  constructor
  · dsimp only [score_route]
    split
    · simp_all
    · simp_all
  · intro s hs
    dsimp only [score_route] at hs
    split at hs
    · exact absurd hs (by simp)
    · cases hs
      exact ⟨rfl, rfl, rfl⟩

/-- The two-point route of the spec scenario. -/
def c2Coords : List Coord := [(0, 0), (0, 10)]

/-- Pollution lookups of the spec scenario: 10 and 50 at the two endpoints. -/
def c2Aqi : Coord → Option Int := fun c =>
  if c = ((0 : ℚ), (0 : ℚ)) then some 10
  else if c = ((0 : ℚ), (10 : ℚ)) then some 50
  else none

theorem c2_score_route_aggregation_witness :
    (score_route c2Aqi c2Coords "Baltimore" "Washington" "Shortest" 0 0).map
      (fun s => (s.avg_aqi, s.max_aqi)) = some (30, 50) := by
  rcases hE : score_route c2Aqi c2Coords "Baltimore" "Washington" "Shortest" 0 0 with _ | s
  · exact absurd
      ((c2_score_route_aggregation c2Aqi c2Coords "Baltimore" "Washington" "Shortest" 0 0).1.mp hE)
      (by decide)
  · have h2 :=
      (c2_score_route_aggregation c2Aqi c2Coords "Baltimore" "Washington" "Shortest" 0 0).2 s hE
    rw [Option.map_some', h2.1, h2.2.1]
    have hfm : (sample_points c2Coords 10).filterMap c2Aqi = [10, 50] := by
      rw [sample_points_of_length_le c2Coords 10 (by norm_num [c2Coords])]
      simp only [c2Coords, c2Aqi, List.filterMap_cons, List.filterMap_nil]
      norm_num [Prod.ext_iff]
    rw [hfm]
    norm_num [listMean, listMax]

/-- A routing preference: `route_type` plus optional `avoid` flag, the
keyword arguments passed to `geoapify_route`. -/
structure RouteConfig where
  route_type : String
  avoid : Option String

/-- A successful `geoapify_route` response: distance, duration, polyline. -/
structure RouteResult where
  distance_m : ℚ
  duration_s : ℚ
  coords : List Coord

/-- The three route alternatives tried by `plan_clean_routes_geoapify`. -/
def configs : List (String × RouteConfig) :=
  [("Shortest", ⟨"short", none⟩),
   ("Balanced", ⟨"balanced", none⟩),
   ("Avoid highways", ⟨"balanced", some "highways"⟩)]

/-- The batch loop of `plan_clean_routes_geoapify`: for each configuration ask
the Geoapify router (`none` models a raised routing error, and the
configuration is skipped silently), score the returned polyline with
`score_route`, and keep the non-`None` scores in configuration order. -/
def routed_scores (router : RouteConfig → Option RouteResult)
    (aqi_at : Coord → Option Int) (o_label d_label : String) : List RouteScore :=
  configs.filterMap (fun nc =>
    (router nc.2).bind (fun r =>
      score_route aqi_at r.coords o_label d_label nc.1 r.distance_m r.duration_s))

/-- The sort key of `scores.sort(key=lambda s: (s.avg_aqi, s.max_aqi))`:
ascending lexicographic order on (average AQI, maximum AQI). -/
def scoreLe (a b : RouteScore) : Prop :=
  a.avg_aqi < b.avg_aqi ∨ (a.avg_aqi = b.avg_aqi ∧ a.max_aqi ≤ b.max_aqi)

instance : DecidableRel scoreLe := fun a b =>
  inferInstanceAs (Decidable (_ ∨ _))

instance : IsTotal RouteScore scoreLe where
  total a b := by
    rcases lt_trichotomy a.avg_aqi b.avg_aqi with h | h | h
    · exact Or.inl (Or.inl h)
    · rcases le_total a.max_aqi b.max_aqi with h2 | h2
      · exact Or.inl (Or.inr ⟨h, h2⟩)
      · exact Or.inr (Or.inr ⟨h.symm, h2⟩)
    · exact Or.inr (Or.inl h)

instance : IsTrans RouteScore scoreLe where
  trans a b c hab hbc := by
    rcases hab with h1 | ⟨e1, m1⟩ <;> rcases hbc with h2 | ⟨e2, m2⟩
    · exact Or.inl (h1.trans h2)
    · exact Or.inl (lt_of_lt_of_eq h1 e2)
    · exact Or.inl (lt_of_eq_of_lt e1 h2)
    · exact Or.inr ⟨e1.trans e2, m1.trans m2⟩

/-- `plan_clean_routes_geoapify` after geocoding (the batch loop, the
no-scores guard and the final sort of src/app.py): raise (`Except.error`)
when no alternative could be routed and scored, otherwise sort the scores by
(average AQI, maximum AQI) ascending. -/
def plan_clean_routes_geoapify (router : RouteConfig → Option RouteResult)
    (aqi_at : Coord → Option Int) (o_label d_label : String) :
    Except String (List RouteScore) :=
  let scores := routed_scores router aqi_at o_label d_label
  if scores = [] then
    Except.error "Could not score any routes (routing or AQI failed)."
  else Except.ok (List.insertionSort scoreLe scores)

/-- C3: every list returned by `plan_clean_routes_geoapify` is sorted
ascending lexicographically by (avg_aqi, max_aqi): for any two entries the
earlier one has a strictly smaller average AQI, or an equal average AQI and a
maximum AQI that is not greater. -/
theorem c3_route_ranking_sorted (router : RouteConfig → Option RouteResult)
    (aqi_at : Coord → Option Int) (o d : String) (L : List RouteScore)
    (hok : plan_clean_routes_geoapify router aqi_at o d = Except.ok L) :
    L.Pairwise (fun a b =>
      a.avg_aqi < b.avg_aqi ∨ (a.avg_aqi = b.avg_aqi ∧ a.max_aqi ≤ b.max_aqi)) := by
  dsimp only [plan_clean_routes_geoapify] at hok
  split at hok
  · cases hok
  · cases hok
    exact List.sorted_insertionSort scoreLe _

/-- C4: `plan_clean_routes_geoapify` fails exactly when the batch loop
produces no score at all (a routing failure is skipped, a `None` score is
excluded), and a successful result is a permutation of the surviving scores. -/
theorem c4_route_failure_policy (router : RouteConfig → Option RouteResult)
    (aqi_at : Coord → Option Int) (o d : String) :
    ((∃ e, plan_clean_routes_geoapify router aqi_at o d = Except.error e) ↔
      routed_scores router aqi_at o d = []) ∧
    (∀ L, plan_clean_routes_geoapify router aqi_at o d = Except.ok L →
      L.Perm (routed_scores router aqi_at o d)) := by
  constructor
  · constructor
    · rintro ⟨e, he⟩
      dsimp only [plan_clean_routes_geoapify] at he
      split at he
      · assumption
      · cases he
    · intro h
      exact ⟨_, by dsimp only [plan_clean_routes_geoapify]; rw [if_pos h]⟩
  · intro L hok
    dsimp only [plan_clean_routes_geoapify] at hok
    split at hok
    · cases hok
    · cases hok
      exact List.perm_insertionSort scoreLe _

lemma plan_ok_of_ne (router : RouteConfig → Option RouteResult)
    (aqi_at : Coord → Option Int) (o d : String)
    (h : routed_scores router aqi_at o d ≠ []) :
    plan_clean_routes_geoapify router aqi_at o d
      = Except.ok (List.insertionSort scoreLe (routed_scores router aqi_at o d)) := by
  dsimp only [plan_clean_routes_geoapify]
  rw [if_neg h]

/-- Witness routes: a two-point polyline and a one-point polyline. -/
def c3CoordsA : List Coord := [(0, 0), (0, 10)]

def c3CoordsB : List Coord := [(1, 1)]

/-- Witness router: the `short` configuration and the plain `balanced`
configuration route, the highway-avoiding one fails. -/
def c3Router : RouteConfig → Option RouteResult := fun c =>
  if c.route_type = "short" then some ⟨1000, 60, c3CoordsA⟩
  else if c.avoid = none then some ⟨2000, 120, c3CoordsB⟩
  else none

def c3Aqi : Coord → Option Int := fun c =>
  if c = ((0 : ℚ), (0 : ℚ)) then some 10
  else if c = ((0 : ℚ), (10 : ℚ)) then some 50
  else if c = ((1 : ℚ), (1 : ℚ)) then some 20
  else none

def c3Out : List RouteScore :=
  List.insertionSort scoreLe (routed_scores c3Router c3Aqi "a" "b")

lemma c3_routed_length : (routed_scores c3Router c3Aqi "a" "b").length = 2 := rfl

lemma c3_routed_ne : routed_scores c3Router c3Aqi "a" "b" ≠ [] := by
  intro h
  have h2 : (routed_scores c3Router c3Aqi "a" "b").length = 0 := by rw [h]; rfl
  rw [c3_routed_length] at h2
  cases h2

theorem c3_route_ranking_sorted_witness :
    c3Out.Pairwise (fun a b =>
      a.avg_aqi < b.avg_aqi ∨ (a.avg_aqi = b.avg_aqi ∧ a.max_aqi ≤ b.max_aqi)) :=
  c3_route_ranking_sorted c3Router c3Aqi "a" "b" c3Out
    (plan_ok_of_ne c3Router c3Aqi "a" "b" c3_routed_ne)

/-- Witness router for the C4 scenario: `short` and `balanced` route, the
highway-avoiding alternative fails to route. -/
def c4Router : RouteConfig → Option RouteResult := fun c =>
  if c.route_type = "short" then some ⟨1000, 60, c3CoordsA⟩
  else if c.avoid = none then some ⟨2000, 120, c3CoordsB⟩
  else none

/-- Witness AQI lookups for the C4 scenario: data along the first route only,
so the `balanced` alternative has zero successful samples. -/
def c4Aqi : Coord → Option Int := fun c =>
  if c = ((0 : ℚ), (0 : ℚ)) then some 10
  else if c = ((0 : ℚ), (10 : ℚ)) then some 50
  else none

def c4Out : List RouteScore :=
  List.insertionSort scoreLe (routed_scores c4Router c4Aqi "a" "b")

lemma c4_routed_length : (routed_scores c4Router c4Aqi "a" "b").length = 1 := rfl

lemma c4_routed_ne : routed_scores c4Router c4Aqi "a" "b" ≠ [] := by
  intro h
  have h2 : (routed_scores c4Router c4Aqi "a" "b").length = 0 := by rw [h]; rfl
  rw [c4_routed_length] at h2
  cases h2

theorem c4_route_failure_policy_witness : c4Out.length = 1 := by
  have h := (c4_route_failure_policy c4Router c4Aqi "a" "b").2 c4Out
    (plan_ok_of_ne c4Router c4Aqi "a" "b" c4_routed_ne)
  rw [h.length_eq, c4_routed_length]

/-- A GeoJSON feature of a Geoapify Places response, with the properties the
source reads: `geometry.coordinates`, `name`, `address_line1`, `formatted`,
`address_line2`, `rating`, `rank.popularity` and `categories` (read back from
the stored raw properties as a string searched for substrings). -/
structure PlaceFeature where
  coordinates : List ℚ
  nameP : Option String
  address_line1 : Option String
  formatted : Option String
  address_line2 : Option String
  rating : Option ℚ
  popularity : Option ℚ
  categories : String
deriving DecidableEq

/-- A place record as assembled by `_places_along_route`. -/
structure Place where
  name : String
  lat : ℚ
  lon : ℚ
  address : String
  distance_km : ℚ
  rating : Option ℚ
  raw_categories : String
deriving DecidableEq

/-- Python `a or b` on an optional string and a fallback: `None` and `""`
are falsy. -/
def pyOrStr (a : Option String) (b : String) : String :=
  match a with
  | none => b
  | some s => if s = "" then b else s

/-- Python `props.get("rating") or popularity`: `None` and `0` are falsy. -/
def pyOrRating (a b : Option ℚ) : Option ℚ :=
  match a with
  | none => b
  | some q => if q = 0 then b else some q

/-- The body of the feature loop of `_places_along_route`: skip features with
fewer than two coordinate components, read `(lon, lat)`, compute the
shapely distance to the route (the external `LineString.distance`, modelled
by `dist` in coordinate degrees; its `none` models the caught exception that
the source turns into `0.0`), convert to kilometers with the rough constant
111, and assemble the place dict with the Python `or`-defaults. -/
def mk_place (dist : List Coord → ℚ × ℚ → Option ℚ) (coords : List Coord)
    (feat : PlaceFeature) : Option Place :=
  if feat.coordinates.length < 2 then none
  else
    let lon := feat.coordinates.headD 0
    let lat := (feat.coordinates.drop 1).headD 0
    let distance_deg := (dist coords (lon, lat)).getD 0
    some
      { name := pyOrStr feat.nameP (pyOrStr feat.address_line1 "Unnamed place")
        lat := lat
        lon := lon
        address := pyOrStr feat.formatted (pyOrStr feat.address_line2 "")
        distance_km := distance_deg * 111
        rating := pyOrRating feat.rating feat.popularity
        raw_categories := feat.categories }

/-- The sort key of
`places.sort(key=lambda x: (x["distance_km"], -(x["rating"] or 0)))`:
ascending distance to the route, then descending rating/popularity, a
missing rating counting as zero. -/
def placeLe (a b : Place) : Prop :=
  a.distance_km < b.distance_km ∨
    (a.distance_km = b.distance_km ∧ b.rating.getD 0 ≤ a.rating.getD 0)

instance : DecidableRel placeLe := fun a b =>
  inferInstanceAs (Decidable (_ ∨ _))

instance : IsTotal Place placeLe where
  total a b := by
    rcases lt_trichotomy a.distance_km b.distance_km with h | h | h
    · exact Or.inl (Or.inl h)
    · rcases le_total (b.rating.getD 0) (a.rating.getD 0) with h2 | h2
      · exact Or.inl (Or.inr ⟨h, h2⟩)
      · exact Or.inr (Or.inr ⟨h.symm, h2⟩)
    · exact Or.inr (Or.inl h)

instance : IsTrans Place placeLe where
  trans a b c hab hbc := by
    rcases hab with h1 | ⟨e1, m1⟩ <;> rcases hbc with h2 | ⟨e2, m2⟩
    · exact Or.inl (h1.trans h2)
    · exact Or.inl (lt_of_lt_of_eq h1 e2)
    · exact Or.inl (lt_of_eq_of_lt e1 h2)
    · exact Or.inr ⟨e1.trans e2, m2.trans m1⟩

/-- `_places_along_route` from src/app.py: an empty route polyline, a failed
or undecodable places request (`resp = none`) or an empty/missing feature
list yield `[]`; otherwise each feature is turned into a place record, the
list is sorted by (distance to route, descending rating) and truncated to
`max_results`. -/
def places_along_route (dist : List Coord → ℚ × ℚ → Option ℚ)
    (resp : Option (List PlaceFeature)) (coords : List Coord)
    (max_results : Nat) : List Place :=
  if coords = [] then []
  else
    match resp with
    | none => []
    | some features =>
      if features = [] then []
      else
        let places := features.filterMap (mk_place dist coords)
        (List.insertionSort placeLe places).take max_results

/-- C8: `_places_along_route` returns a list sorted ascending by distance to
the route, with descending rating (a missing rating counting as zero) as the
tie-break, truncated to `max_results`. -/
theorem c8_places_ranking (dist : List Coord → ℚ × ℚ → Option ℚ)
    (resp : Option (List PlaceFeature)) (coords : List Coord)
    (max_results : Nat) :
    (places_along_route dist resp coords max_results).Pairwise
      (fun a b => a.distance_km < b.distance_km ∨
        (a.distance_km = b.distance_km ∧ b.rating.getD 0 ≤ a.rating.getD 0)) ∧
    (places_along_route dist resp coords max_results).length ≤ max_results := by
  dsimp only [places_along_route]
  split
  · exact ⟨List.Pairwise.nil, by simp⟩
  · split
    · exact ⟨List.Pairwise.nil, by simp⟩
    · split
      · exact ⟨List.Pairwise.nil, by simp⟩
      · constructor
        · exact List.Pairwise.sublist (List.take_sublist _ _)
            (List.sorted_insertionSort placeLe _)
        · exact List.length_take_le _ _

/-- C9: an adapter failure of the places query (`resp = none`, covering a
request error or an undecodable payload), an empty or missing feature list,
or an empty route polyline all yield the empty list; the function is total,
so no error propagates. -/
theorem c9_places_failure_policy (dist : List Coord → ℚ × ℚ → Option ℚ)
    (coords : List Coord) (max_results : Nat) :
    places_along_route dist none coords max_results = [] ∧
    places_along_route dist (some []) coords max_results = [] ∧
    (∀ resp, places_along_route dist resp [] max_results = []) := by
  refine ⟨?_, ?_, ?_⟩
  · dsimp only [places_along_route]
    split <;> rfl
  · dsimp only [places_along_route]
    split
    · rfl
    · rfl
  · intro resp
    rfl

/-- Python substring test `pat in text` on strings. -/
def str_contains (text pat : String) : Bool := decide (pat.toList <:+: text.toList)

/-- The fixed pediatric keyword set of `get_pediatric_care_stops`. -/
def pediatric_keywords : List String := ["child", "children", "pediatric", "kids"]

/-- `is_pediatric` from src/app.py: case-insensitive substring match of any
keyword against `name + " " + address` (the Python `.lower()` is modelled
character-wise over the string's characters). -/
def is_pediatric (p : Place) : Bool :=
  let text := (p.name ++ " " ++ p.address).toList.map Char.toLower
  pediatric_keywords.any (fun k => decide (k.toList <:+: text))

/-- The fallback filter of `get_pediatric_care_stops`: places whose raw
`categories` value contains `"hospital"` or `"clinic"`. -/
def is_fallback_category (p : Place) : Bool :=
  str_contains p.raw_categories "hospital" || str_contains p.raw_categories "clinic"

/-- The `seen`-set deduplication loop of `get_pediatric_care_stops`: keep the
first occurrence of each place name. -/
def dedupe_by_name (seen : List String) : List Place → List Place
  | [] => []
  | p :: ps =>
    if p.name ∈ seen then dedupe_by_name seen ps
    else p :: dedupe_by_name (p.name :: seen) ps

lemma dedupe_by_name_sublist : ∀ (l : List Place) (seen : List String),
    dedupe_by_name seen l <+ l := by
  intro l
  induction l with
  | nil => intro seen; exact List.Sublist.refl _
  | cons p ps ih =>
    intro seen
    dsimp only [dedupe_by_name]
    split
    · exact (ih seen).trans (List.sublist_cons_self p ps)
    · exact (ih (p.name :: seen)).cons₂ p

lemma dedupe_by_name_nodup : ∀ (l : List Place) (seen : List String),
    ((dedupe_by_name seen l).map Place.name).Nodup ∧
    ∀ p ∈ dedupe_by_name seen l, p.name ∉ seen := by
  intro l
  induction l with
  | nil =>
    intro seen
    exact ⟨List.Pairwise.nil, fun p hp => absurd hp (List.not_mem_nil p)⟩
  | cons p ps ih =>
    intro seen
    dsimp only [dedupe_by_name]
    split
    · exact ih seen
    · rename_i hnot
      obtain ⟨ihn, ihs⟩ := ih (p.name :: seen)
      constructor
      · simp only [List.map_cons, List.nodup_cons]
        refine ⟨?_, ihn⟩
        intro hmem
        obtain ⟨q, hq, hqn⟩ := List.mem_map.mp hmem
        exact (ihs q hq) (by rw [hqn]; exact List.mem_cons_self _ _)
      · intro q hq
        rcases List.mem_cons.mp hq with rfl | hq2
        · exact hnot
        · intro hqs
          exact (ihs q hq2) (List.mem_cons_of_mem _ hqs)

lemma dedupe_by_name_append : ∀ (a : List Place) (seen : List String) (b : List Place),
    ∃ s2, dedupe_by_name seen (a ++ b) = dedupe_by_name seen a ++ dedupe_by_name s2 b := by
  intro a
  induction a with
  | nil => intro seen b; exact ⟨seen, rfl⟩
  | cons p ps ih =>
    intro seen b
    dsimp only [List.cons_append, dedupe_by_name]
    split
    · exact ih seen b
    · obtain ⟨s2, hs2⟩ := ih (p.name :: seen) b
      exact ⟨s2, by rw [hs2]; rfl⟩

/-- `get_pediatric_care_stops` from src/app.py: collect healthcare places
along the route (budget 25), keep the pediatric-keyword matches; when fewer
than 3 are found, merge in the hospital/clinic-category places, deduplicating
by name with pediatric matches first; cap the final output at 10. -/
def get_pediatric_care_stops (dist : List Coord → ℚ × ℚ → Option ℚ)
    (resp : Option (List PlaceFeature)) (route_coords : List Coord) : List Place :=
  let all_places := places_along_route dist resp route_coords 25
  let pedi := all_places.filter is_pediatric
  let pedi2 :=
    if pedi.length < 3 then
      dedupe_by_name [] (pedi ++ all_places.filter is_fallback_category)
    else pedi
  pedi2.take 10

/-- C7: the fallback merge of `get_pediatric_care_stops` happens exactly when
fewer than 3 pediatric-keyword matches are found; the merged list carries no
duplicate place name, is a sublist of "pediatric matches followed by fallback
places" (first-seen order, pediatric first: it splits as the deduplicated
pediatric matches followed by a tail taken from the fallback places in
order), and the final output never exceeds 10 entries. -/
theorem c7_pediatric_fallback (dist : List Coord → ℚ × ℚ → Option ℚ)
    (resp : Option (List PlaceFeature)) (route_coords : List Coord)
    (all_places pedi : List Place)
    (hall : all_places = places_along_route dist resp route_coords 25)
    (hpedi : pedi = all_places.filter is_pediatric) :
    (get_pediatric_care_stops dist resp route_coords).length ≤ 10 ∧
    (3 ≤ pedi.length →
      get_pediatric_care_stops dist resp route_coords = pedi.take 10) ∧
    (pedi.length < 3 →
      get_pediatric_care_stops dist resp route_coords
          = (dedupe_by_name [] (pedi ++ all_places.filter is_fallback_category)).take 10 ∧
      ((dedupe_by_name [] (pedi ++ all_places.filter is_fallback_category)).map Place.name).Nodup ∧
      dedupe_by_name [] (pedi ++ all_places.filter is_fallback_category)
          <+ pedi ++ all_places.filter is_fallback_category ∧
      ∃ tail, dedupe_by_name [] (pedi ++ all_places.filter is_fallback_category)
          = dedupe_by_name [] pedi ++ tail ∧
        tail <+ all_places.filter is_fallback_category) := by
  subst hall
  subst hpedi
  refine ⟨?_, ?_, ?_⟩
  · dsimp only [get_pediatric_care_stops]
    split
    · exact List.length_take_le _ _
    · exact List.length_take_le _ _
  · intro h3
    dsimp only [get_pediatric_care_stops]
    rw [if_neg (by omega)]
  · intro h3
    refine ⟨?_, (dedupe_by_name_nodup _ _).1, dedupe_by_name_sublist _ _, ?_⟩
    · dsimp only [get_pediatric_care_stops]
      rw [if_pos h3]
    · obtain ⟨s2, hs2⟩ := dedupe_by_name_append
        ((places_along_route dist resp route_coords 25).filter is_pediatric) []
        ((places_along_route dist resp route_coords 25).filter is_fallback_category)
      exact ⟨_, hs2, dedupe_by_name_sublist _ _⟩

/-- Witness route polyline for C7. -/
def c7Coords : List Coord := [(0, 0)]

/-- Witness distance oracle for C7: every place is on the route. -/
def c7Dist : List Coord → ℚ × ℚ → Option ℚ := fun _ _ => some 0

/-- A single hospital feature, not pediatric, with a hospital category. -/
def c7Feat : PlaceFeature :=
  { coordinates := [5, 6]
    nameP := some "General Hospital"
    address_line1 := none
    formatted := some "1 Main St"
    address_line2 := none
    rating := none
    popularity := none
    categories := "healthcare.hospital" }

def c7Resp : Option (List PlaceFeature) := some [c7Feat]

theorem c7_pediatric_fallback_witness :
    (get_pediatric_care_stops c7Dist c7Resp c7Coords).length ≤ 10 ∧
    (get_pediatric_care_stops c7Dist c7Resp c7Coords).map Place.name
      = ["General Hospital"] := by
  have h := c7_pediatric_fallback c7Dist c7Resp c7Coords
    (places_along_route c7Dist c7Resp c7Coords 25)
    ((places_along_route c7Dist c7Resp c7Coords 25).filter is_pediatric) rfl rfl
  refine ⟨h.1, ?_⟩
  rw [(h.2.2 (by decide)).1]
  decide

/-- A forecast entry `{date, aqi, category, pollutant}` as built by
`airnow_forecast_zip`; calendar dates are modelled as naturals. -/
structure Forecast where
  date : Nat
  aqi : Int
  category : String
  pollutant : String
deriving DecidableEq, Repr

/-- Association-list lookup by date, modelling the Python dict access
`by_date[d]` / membership test `d in by_date`. -/
def findD : List (Nat × Forecast) → Nat → Option (Nat × Forecast)
  | [], _ => none
  | p :: m, d => if p.1 = d then some p else findD m d

/-- One step of the `by_date` merge loop of `airnow_forecast_zip`: Python
`if d not in by_date or f["aqi"] > by_date[d]["aqi"]: by_date[d] = f`, on an
insertion-ordered association list modelling the Python dict (`d not in
by_date` appends, a strictly larger AQI replaces in place). -/
def upd_by_date (m : List (Nat × Forecast)) (f : Forecast) : List (Nat × Forecast) :=
  match findD m f.date with
  | none => m ++ [(f.date, f)]
  | some p =>
    if p.2.aqi < f.aqi then
      m.map (fun q => if q.1 = f.date then (f.date, f) else q)
    else m

/-- The `by_date` dict after the whole merge loop. -/
def by_date (l : List Forecast) : List (Nat × Forecast) := l.foldl upd_by_date []

/-- Dict lookup `by_date[d]`, forgetting the key. -/
def viewD (m : List (Nat × Forecast)) (d : Nat) : Option Forecast :=
  (findD m d).map Prod.snd

/-- The per-date effect of one merge step: a new date is inserted, a
strictly larger AQI replaces the stored entry, anything else is dropped. -/
def mergeStep (cur : Option Forecast) (f : Forecast) : Option Forecast :=
  match cur with
  | none => some f
  | some g => if g.aqi < f.aqi then some f else some g

/-- `[by_date[d] for d in sorted(by_date.keys())]`. -/
def mergeForecast (l : List Forecast) : List Forecast :=
  (List.insertionSort (· ≤ ·) ((by_date l).map Prod.fst)).filterMap (viewD (by_date l))

lemma findD_append (m₁ m₂ : List (Nat × Forecast)) (d : Nat) :
    findD (m₁ ++ m₂) d = (findD m₁ d).or (findD m₂ d) := by
  induction m₁ with
  | nil => simp [findD]
  | cons q m ih =>
    by_cases hq : q.1 = d
    · simp [findD, hq]
    · simp [findD, hq, ih]

lemma findD_replace (m : List (Nat × Forecast)) (a : Nat) (v : Forecast) (d : Nat) :
    findD (m.map (fun q => if q.1 = a then (a, v) else q)) d
      = if a = d then (findD m a).map (fun _ => (a, v)) else findD m d := by
  induction m with
  | nil => by_cases h : a = d <;> simp [findD, h]
  | cons q m ih =>
    by_cases hqa : q.1 = a
    · by_cases had : a = d
      · subst had
        simp [findD, hqa]
      · simp only [List.map_cons, if_pos hqa, findD, if_neg had]
        rw [if_neg had] at ih
        rw [ih, if_neg (show ¬ q.1 = d from fun h => had (hqa.symm.trans h))]
    · by_cases hqd : q.1 = d
      · have had : ¬ a = d := fun h => hqa (hqd.trans h.symm)
        simp only [List.map_cons, if_neg hqa, findD, if_pos hqd, if_neg had]
      · simp only [List.map_cons, if_neg hqa, findD, if_neg hqd, ih]

lemma viewD_upd (m : List (Nat × Forecast)) (f : Forecast) (d : Nat) :
    viewD (upd_by_date m f) d
      = if f.date = d then mergeStep (viewD m d) f else viewD m d := by
  rcases hfind : findD m f.date with _ | p
  · have hupd : upd_by_date m f = m ++ [(f.date, f)] := by
      unfold upd_by_date; rw [hfind]
    rw [hupd]
    unfold viewD
    rw [findD_append]
    by_cases hd : f.date = d
    · subst hd
      rw [hfind]
      simp [findD, mergeStep, viewD, hfind]
    · rw [if_neg hd]
      have h1 : findD [(f.date, f)] d = none := by simp [findD, hd]
      rw [h1, Option.or_none]
  · by_cases hlt : p.2.aqi < f.aqi
    · have hupd : upd_by_date m f
          = m.map (fun q => if q.1 = f.date then (f.date, f) else q) := by
        unfold upd_by_date; rw [hfind]; exact if_pos hlt
      rw [hupd]
      unfold viewD
      rw [findD_replace]
      by_cases hd : f.date = d
      · subst hd
        rw [if_pos rfl, hfind]
        simp [mergeStep, viewD, hfind, hlt]
      · rw [if_neg hd, if_neg hd]
    · have hupd : upd_by_date m f = m := by
        unfold upd_by_date; rw [hfind]; exact if_neg hlt
      rw [hupd]
      by_cases hd : f.date = d
      · subst hd
        rw [if_pos rfl]
        unfold viewD
        rw [hfind]
        simp [mergeStep, hlt]
      · rw [if_neg hd]

lemma viewD_foldl (l : List Forecast) : ∀ (m : List (Nat × Forecast)) (d : Nat),
    viewD (l.foldl upd_by_date m) d
      = (l.filter (fun f => f.date == d)).foldl mergeStep (viewD m d) := by
  induction l with
  | nil => intro m d; rfl
  | cons f t ih =>
    intro m d
    rw [List.foldl_cons, ih]
    by_cases hd : f.date = d
    · rw [List.filter_cons_of_pos (by simpa using hd), List.foldl_cons,
        viewD_upd, if_pos hd]
    · rw [List.filter_cons_of_neg (by simpa using hd), viewD_upd, if_neg hd]

lemma foldl_mergeStep_some (t : List Forecast) : ∀ (g : Forecast),
    ∃ g2, t.foldl mergeStep (some g) = some g2 ∧ g.aqi ≤ g2.aqi ∧
      (g2 = g ∨ g2 ∈ t) := by
  induction t with
  | nil => intro g; exact ⟨g, rfl, le_refl _, Or.inl rfl⟩
  | cons f t ih =>
    intro g
    rw [List.foldl_cons]
    show ∃ g2, t.foldl mergeStep (if g.aqi < f.aqi then some f else some g) = some g2 ∧ _
    by_cases hlt : g.aqi < f.aqi
    · rw [if_pos hlt]
      obtain ⟨g2, h1, h2, h3⟩ := ih f
      refine ⟨g2, h1, le_trans (le_of_lt hlt) h2, Or.inr ?_⟩
      rcases h3 with rfl | h3
      · exact List.mem_cons_self _ _
      · exact List.mem_cons_of_mem _ h3
    · rw [if_neg hlt]
      obtain ⟨g2, h1, h2, h3⟩ := ih g
      exact ⟨g2, h1, h2, h3.imp id (List.mem_cons_of_mem _)⟩

lemma foldl_mergeStep_dom (t : List Forecast) : ∀ (cur : Option Forecast)
    (f : Forecast), f ∈ t →
    ∃ g, t.foldl mergeStep cur = some g ∧ f.aqi ≤ g.aqi := by
  induction t with
  | nil => intro cur f hf; cases hf
  | cons a t ih =>
    intro cur f hf
    rw [List.foldl_cons]
    rcases List.mem_cons.mp hf with rfl | hf2
    · cases cur with
      | none =>
        obtain ⟨g2, h1, h2, _⟩ := foldl_mergeStep_some t f
        exact ⟨g2, h1, h2⟩
      | some g =>
        show ∃ g2, t.foldl mergeStep (if g.aqi < f.aqi then some f else some g) = some g2 ∧ _
        by_cases hlt : g.aqi < f.aqi
        · rw [if_pos hlt]
          obtain ⟨g2, h1, h2, _⟩ := foldl_mergeStep_some t f
          exact ⟨g2, h1, h2⟩
        · rw [if_neg hlt]
          obtain ⟨g2, h1, h2, _⟩ := foldl_mergeStep_some t g
          exact ⟨g2, h1, le_trans (not_lt.mp hlt) h2⟩
    · exact ih _ f hf2

lemma mem_upd_by_date (m : List (Nat × Forecast)) (f : Forecast) :
    ∀ q ∈ upd_by_date m f, q ∈ m ∨ q = (f.date, f) := by
  intro q hq
  rcases hfind : findD m f.date with _ | p
  · have hupd : upd_by_date m f = m ++ [(f.date, f)] := by
      unfold upd_by_date; rw [hfind]
    rw [hupd] at hq
    rcases List.mem_append.mp hq with h | h
    · exact Or.inl h
    · exact Or.inr (by simpa using h)
  · by_cases hlt : p.2.aqi < f.aqi
    · have hupd : upd_by_date m f
          = m.map (fun q => if q.1 = f.date then (f.date, f) else q) := by
        unfold upd_by_date; rw [hfind]; exact if_pos hlt
      rw [hupd] at hq
      obtain ⟨q', hq', he⟩ := List.mem_map.mp hq
      by_cases h1 : q'.1 = f.date
      · rw [if_pos h1] at he
        exact Or.inr he.symm
      · rw [if_neg h1] at he
        exact Or.inl (he ▸ hq')
    · have hupd : upd_by_date m f = m := by
        unfold upd_by_date; rw [hfind]; exact if_neg hlt
      rw [hupd] at hq
      exact Or.inl hq

lemma by_date_mem_aux (l : List Forecast) : ∀ (m : List (Nat × Forecast)) (q : Nat × Forecast),
    q ∈ l.foldl upd_by_date m → q ∈ m ∨ (q.1 = q.2.date ∧ q.2 ∈ l) := by
  induction l with
  | nil => intro m q hq; exact Or.inl hq
  | cons f t ih =>
    intro m q hq
    rw [List.foldl_cons] at hq
    rcases ih (upd_by_date m f) q hq with h | ⟨h1, h2⟩
    · rcases mem_upd_by_date m f q h with h | rfl
      · exact Or.inl h
      · exact Or.inr ⟨rfl, List.mem_cons_self _ _⟩
    · exact Or.inr ⟨h1, List.mem_cons_of_mem _ h2⟩

lemma by_date_mem (l : List Forecast) : ∀ q ∈ by_date l, q.1 = q.2.date ∧ q.2 ∈ l := by
  intro q hq
  rcases by_date_mem_aux l [] q hq with h | h
  · cases h
  · exact h

lemma findD_eq_none_iff (m : List (Nat × Forecast)) (d : Nat) :
    findD m d = none ↔ d ∉ m.map Prod.fst := by
  induction m with
  | nil => simp [findD]
  | cons q m ih =>
    by_cases hq : q.1 = d
    · simp [findD, hq]
    · rw [List.map_cons]
      simp only [findD, if_neg hq, ih, List.mem_cons]
      constructor
      · intro h hc
        rcases hc with hc | hc
        · exact hq hc.symm
        · exact h hc
      · intro h hc
        exact h (Or.inr hc)

lemma findD_some (m : List (Nat × Forecast)) (d : Nat) (p : Nat × Forecast)
    (h : findD m d = some p) : p.1 = d ∧ p ∈ m := by
  induction m with
  | nil => cases h
  | cons q m ih =>
    by_cases hq : q.1 = d
    · simp only [findD, if_pos hq] at h
      cases h
      exact ⟨hq, List.mem_cons_self _ _⟩
    · simp only [findD, if_neg hq] at h
      obtain ⟨h1, h2⟩ := ih h
      exact ⟨h1, List.mem_cons_of_mem _ h2⟩

lemma keys_upd_by_date (m : List (Nat × Forecast)) (f : Forecast) :
    (upd_by_date m f).map Prod.fst = m.map Prod.fst
      ∨ ((upd_by_date m f).map Prod.fst = m.map Prod.fst ++ [f.date]
          ∧ findD m f.date = none) := by
  rcases hfind : findD m f.date with _ | p
  · right
    have hupd : upd_by_date m f = m ++ [(f.date, f)] := by
      unfold upd_by_date; rw [hfind]
    rw [hupd, List.map_append]
    exact ⟨rfl, rfl⟩
  · left
    by_cases hlt : p.2.aqi < f.aqi
    · have hupd : upd_by_date m f
          = m.map (fun q => if q.1 = f.date then (f.date, f) else q) := by
        unfold upd_by_date; rw [hfind]; exact if_pos hlt
      rw [hupd, List.map_map]
      apply List.map_congr_left
      intro q hq
      by_cases h1 : q.1 = f.date
      · simp [Function.comp, h1]
      · simp [Function.comp, h1]
    · have hupd : upd_by_date m f = m := by
        unfold upd_by_date; rw [hfind]; exact if_neg hlt
      rw [hupd]

lemma keys_nodup_foldl (l : List Forecast) : ∀ (m : List (Nat × Forecast)),
    (m.map Prod.fst).Nodup → ((l.foldl upd_by_date m).map Prod.fst).Nodup := by
  induction l with
  | nil => intro m h; exact h
  | cons f t ih =>
    intro m h
    rw [List.foldl_cons]
    apply ih
    rcases keys_upd_by_date m f with hk | ⟨hk, hnone⟩
    · rw [hk]; exact h
    · rw [hk, List.nodup_append]
      refine ⟨h, List.nodup_singleton _, ?_⟩
      intro a ha hb
      rw [List.mem_singleton] at hb
      subst hb
      exact (findD_eq_none_iff m f.date).mp hnone ha

lemma by_date_keys_nodup (l : List Forecast) : ((by_date l).map Prod.fst).Nodup :=
  keys_nodup_foldl l [] (by simp)

lemma mem_mergeForecast (l : List Forecast) (e : Forecast) :
    e ∈ mergeForecast l ↔ ∃ d, viewD (by_date l) d = some e := by
  unfold mergeForecast
  rw [List.mem_filterMap]
  constructor
  · rintro ⟨d, _, h2⟩
    exact ⟨d, h2⟩
  · rintro ⟨d, h⟩
    refine ⟨d, ?_, h⟩
    have h2 := h
    unfold viewD at h2
    obtain ⟨p, hp, _⟩ := Option.map_eq_some'.mp h2
    obtain ⟨hp1, hp2⟩ := findD_some _ _ _ hp
    have hk : d ∈ (by_date l).map Prod.fst := List.mem_map.mpr ⟨p, hp2, hp1⟩
    exact ((List.perm_insertionSort (· ≤ ·) _).mem_iff).mpr hk

lemma viewD_date (l : List Forecast) (d : Nat) (e : Forecast)
    (h : viewD (by_date l) d = some e) : e.date = d ∧ e ∈ l := by
  unfold viewD at h
  obtain ⟨p, hp, he⟩ := Option.map_eq_some'.mp h
  obtain ⟨hp1, hp2⟩ := findD_some _ _ _ hp
  obtain ⟨hq1, hq2⟩ := by_date_mem l p hp2
  subst he
  exact ⟨by rw [← hq1, hp1], hq2⟩

lemma by_date_dominates (l : List Forecast) (f : Forecast) (hf : f ∈ l) :
    ∃ g, viewD (by_date l) f.date = some g ∧ f.aqi ≤ g.aqi := by
  have hv : viewD (by_date l) f.date
      = (l.filter (fun x => x.date == f.date)).foldl mergeStep none :=
    viewD_foldl l [] f.date
  have hmem : f ∈ l.filter (fun x => x.date == f.date) :=
    List.mem_filter.mpr ⟨hf, by simp⟩
  obtain ⟨g, h1, h2⟩ := foldl_mergeStep_dom _ none f hmem
  exact ⟨g, by rw [hv, h1], h2⟩

lemma upd_by_date_noop (m : List (Nat × Forecast)) (f : Forecast) (g : Forecast)
    (hview : viewD m f.date = some g) (hle : f.aqi ≤ g.aqi) :
    upd_by_date m f = m := by
  unfold viewD at hview
  obtain ⟨p, hp, he⟩ := Option.map_eq_some'.mp hview
  unfold upd_by_date
  rw [hp]
  exact if_neg (by rw [he]; exact not_lt.mpr hle)

lemma foldl_upd_noop (l2 : List Forecast) : ∀ (m : List (Nat × Forecast)),
    (∀ f ∈ l2, ∃ g, viewD m f.date = some g ∧ f.aqi ≤ g.aqi) →
    l2.foldl upd_by_date m = m := by
  induction l2 with
  | nil => intro m _; rfl
  | cons f t ih =>
    intro m hdom
    rw [List.foldl_cons]
    obtain ⟨g, h1, h2⟩ := hdom f (List.mem_cons_self _ _)
    rw [upd_by_date_noop m f g h1 h2]
    exact ih m (fun x hx => hdom x (List.mem_cons_of_mem _ hx))

lemma mergeForecast_idem (l : List Forecast) :
    mergeForecast (l ++ l) = mergeForecast l := by
  have hbd : by_date (l ++ l) = by_date l := by
    show (l ++ l).foldl upd_by_date [] = l.foldl upd_by_date []
    rw [List.foldl_append]
    exact foldl_upd_noop l _ (fun f hf => by_date_dominates l f hf)
  unfold mergeForecast
  rw [hbd]

lemma pairwise_filterMap_of {α β : Type*} {R : α → α → Prop} {S : β → β → Prop}
    (f : α → Option β)
    (hRS : ∀ a b, R a b → ∀ x, f a = some x → ∀ y, f b = some y → S x y) :
    ∀ l : List α, l.Pairwise R → (l.filterMap f).Pairwise S := by
  intro l
  induction l with
  | nil => intro _; simp
  | cons a t ih =>
    intro hp
    rw [List.pairwise_cons] at hp
    rw [List.filterMap_cons]
    cases hfa : f a with
    | none => exact ih hp.2
    | some x =>
      rw [List.pairwise_cons]
      refine ⟨?_, ih hp.2⟩
      intro y hy
      obtain ⟨b, hb, hfb⟩ := List.mem_filterMap.mp hy
      exact hRS a b (hp.1 b hb) x hfa y hfb

lemma mergeForecast_dates_nodup (l : List Forecast) :
    ((mergeForecast l).map Forecast.date).Nodup := by
  show ((mergeForecast l).map Forecast.date).Pairwise (· ≠ ·)
  rw [List.pairwise_map]
  unfold mergeForecast
  apply pairwise_filterMap_of (R := fun a b => a ≠ b) (viewD (by_date l)) ?_ _ ?_
  · intro a b hab x hx y hy
    rw [(viewD_date l a x hx).1, (viewD_date l b y hy).1]
    exact hab
  · exact ((List.perm_insertionSort (· ≤ ·) _).nodup_iff).mpr (by_date_keys_nodup l)

lemma mergeForecast_sorted (l : List Forecast) :
    (mergeForecast l).Pairwise (fun a b => a.date ≤ b.date) := by
  unfold mergeForecast
  apply pairwise_filterMap_of (R := fun a b => a ≤ b) (viewD (by_date l)) ?_ _
    (List.sorted_insertionSort _ _)
  intro a b hab x hx y hy
  rw [(viewD_date l a x hx).1, (viewD_date l b y hy).1]
  exact hab

lemma mergeForecast_max (l : List Forecast) (e : Forecast)
    (he : e ∈ mergeForecast l) :
    e ∈ l ∧ ∀ f ∈ l, f.date = e.date → f.aqi ≤ e.aqi := by
  obtain ⟨d, hd⟩ := (mem_mergeForecast l e).mp he
  obtain ⟨hdate, hmem⟩ := viewD_date l d e hd
  refine ⟨hmem, ?_⟩
  intro f hf hfd
  obtain ⟨g, h1, h2⟩ := by_date_dominates l f hf
  rw [hfd, hdate, hd] at h1
  cases h1
  exact h2

lemma mergeForecast_covers (l : List Forecast) (f : Forecast) (hf : f ∈ l) :
    ∃ e ∈ mergeForecast l, e.date = f.date := by
  obtain ⟨g, h1, h2⟩ := by_date_dominates l f hf
  exact ⟨g, (mem_mergeForecast l g).mpr ⟨f.date, h1⟩, (viewD_date l f.date g h1).1⟩

/-- C5: the by-date merge of `airnow_forecast_zip` is idempotent (merging a
list with itself gives the same result as merging once), yields at most one
entry per calendar date, and keeps for every present date an entry of the
input with the maximal pollution index among that date's entries. -/
theorem c5_forecast_merge (l : List Forecast) :
    mergeForecast (l ++ l) = mergeForecast l ∧
    ((mergeForecast l).map Forecast.date).Nodup ∧
    (∀ e ∈ mergeForecast l, e ∈ l ∧ ∀ f ∈ l, f.date = e.date → f.aqi ≤ e.aqi) ∧
    (∀ f ∈ l, ∃ e ∈ mergeForecast l, e.date = f.date) :=
  ⟨mergeForecast_idem l, mergeForecast_dates_nodup l,
   fun e he => mergeForecast_max l e he,
   fun f hf => mergeForecast_covers l f hf⟩

/-- The forecast entries of the spec scenario: dates D1 = 1 and D2 = 2. -/
def c5Ex : List Forecast :=
  [⟨1, 40, "Moderate", "PM2.5"⟩, ⟨1, 55, "Moderate", "O3"⟩, ⟨2, 20, "Good", "PM2.5"⟩]

theorem c5_forecast_merge_witness :
    mergeForecast (c5Ex ++ c5Ex) = mergeForecast c5Ex ∧
    mergeForecast c5Ex = [⟨1, 55, "Moderate", "O3"⟩, ⟨2, 20, "Good", "PM2.5"⟩] ∧
    (⟨1, 55, "Moderate", "O3"⟩ : Forecast) ∈ c5Ex :=
  ⟨(c5_forecast_merge c5Ex).1, by decide,
   ((c5_forecast_merge c5Ex).2.2.1 ⟨1, 55, "Moderate", "O3"⟩ (by decide)).1⟩

/-- Python `item.get("DateForecast") or item.get("DateIssue")`: `None` and
the empty string are falsy. -/
def pyOrOpt (a b : Option String) : Option String :=
  match a with
  | none => b
  | some s => if s = "" then b else some s

/-- A raw AirNow forecast payload item with the fields the source reads:
`DateForecast`, `DateIssue`, `AQI` (default 0), `Category.Name` and
`ParameterName` (default "Unknown"). -/
structure RawItem where
  dateForecast : Option String
  dateIssue : Option String
  aqi : Option Int
  categoryName : Option String
  parameterName : Option String
deriving DecidableEq

/-- The date-parsing step of `airnow_forecast_zip`:
`strptime(date_str.split("T")[0], "%Y-%m-%d").date()` wrapped in
`try/except` defaulting to `date.today()`. `parse_date` models the external
`datetime.strptime` (a `none` models its ValueError); `split("T")[0]` is the
prefix of the string before the first `'T'`; a missing date string raises
AttributeError, also caught, so both failure modes default to `today`. -/
def item_date (parse_date : String → Option Nat) (today : Nat) (it : RawItem) : Nat :=
  match pyOrOpt it.dateForecast it.dateIssue with
  | none => today
  | some s =>
    match parse_date (String.mk (s.toList.takeWhile (fun c => c ≠ 'T'))) with
    | none => today
    | some d => d

/-- The `forecast_days` list built by the parsing loop of
`airnow_forecast_zip`. -/
def parse_forecast_days (parse_date : String → Option Nat) (today : Nat)
    (data : List RawItem) : List Forecast :=
  data.map (fun it =>
    { date := item_date parse_date today it
      aqi := it.aqi.getD 0
      category := it.categoryName.getD "Unknown"
      pollutant := it.parameterName.getD "Unknown" })

/-- `airnow_forecast_zip` from src/app.py: an undecodable response
(`resp = none`, also covering the `Message` error payload) raises, an empty
payload raises, and otherwise the parsed entries are merged by date keeping
the worst AQI per day and returned sorted by date. -/
def airnow_forecast_zip (parse_date : String → Option Nat) (today : Nat)
    (resp : Option (List RawItem)) : Except String (List Forecast) :=
  match resp with
  | none => Except.error "Could not decode AirNow forecast response"
  | some data =>
    if data = [] then Except.error "No forecast data returned"
    else Except.ok (mergeForecast (parse_forecast_days parse_date today data))

/-- Python `min(fc, key=lambda x: x["aqi"])` on the nonempty list
`b0 :: t`: the first element attaining the minimal AQI. -/
def py_min_aqi (b0 : Forecast) (t : List Forecast) : Forecast :=
  t.foldl (fun best f => if f.aqi < best.aqi then f else best) b0

/-- The window comprehension of `suggest_best_travel_day`:
`[f for f in all_fc if today <= f["date"] <= cutoff]`. -/
def window_filter (all_fc : List Forecast) (today cutoff : Nat) : List Forecast :=
  all_fc.filter (fun f => decide (today ≤ f.date) && decide (f.date ≤ cutoff))

/-- `suggest_best_travel_day` from src/app.py: fetch and merge the forecast,
keep the entries in the inclusive window `[today, today + look_ahead_days]`,
raise when the window is empty, otherwise return the window and its first
minimal-AQI entry. -/
def suggest_best_travel_day (parse_date : String → Option Nat) (today : Nat)
    (resp : Option (List RawItem)) (look_ahead_days : Nat) :
    Except String (List Forecast × Forecast) :=
  match airnow_forecast_zip parse_date today resp with
  | Except.error e => Except.error e
  | Except.ok all_fc =>
    match window_filter all_fc today (today + look_ahead_days) with
    | [] => Except.error "No forecast entries in the desired look-ahead window."
    | h :: t => Except.ok (h :: t, py_min_aqi h t)

lemma py_min_aqi_spec (t : List Forecast) : ∀ (b0 : Forecast),
    py_min_aqi b0 t ∈ b0 :: t ∧
    (py_min_aqi b0 t = b0 ∨ (py_min_aqi b0 t).aqi < b0.aqi) ∧
    (py_min_aqi b0 t).aqi ≤ b0.aqi ∧
    (∀ f ∈ t, (py_min_aqi b0 t).aqi ≤ f.aqi) := by
  induction t with
  | nil =>
    intro b0
    exact ⟨List.mem_cons_self _ _, Or.inl rfl, le_refl _, by intro f hf; cases hf⟩
  | cons x t ih =>
    intro b0
    have hstep : py_min_aqi b0 (x :: t)
        = py_min_aqi (if x.aqi < b0.aqi then x else b0) t := rfl
    by_cases hx : x.aqi < b0.aqi
    · rw [hstep, if_pos hx]
      obtain ⟨m1, m2, m3, m4⟩ := ih x
      refine ⟨List.mem_cons_of_mem _ m1, ?_, le_trans m3 (le_of_lt hx), ?_⟩
      · right
        rcases m2 with h | h
        · rw [h]; exact hx
        · exact h.trans hx
      · intro f hf
        rcases List.mem_cons.mp hf with rfl | hf2
        · exact m3
        · exact m4 f hf2
    · rw [hstep, if_neg hx]
      obtain ⟨m1, m2, m3, m4⟩ := ih b0
      refine ⟨?_, m2, m3, ?_⟩
      · rcases List.mem_cons.mp m1 with h | h
        · rw [h]; exact List.mem_cons_self _ _
        · exact List.mem_cons_of_mem _ (List.mem_cons_of_mem _ h)
      · intro f hf
        rcases List.mem_cons.mp hf with rfl | hf2
        · exact le_trans m3 (not_lt.mp hx)
        · exact m4 f hf2

lemma py_min_aqi_earliest (t : List Forecast) : ∀ (b0 : Forecast),
    (b0 :: t).Pairwise (fun a b => a.date ≤ b.date) →
    ∀ f ∈ b0 :: t, f.aqi = (py_min_aqi b0 t).aqi → (py_min_aqi b0 t).date ≤ f.date := by
  induction t with
  | nil =>
    intro b0 _ f hf _
    rcases List.mem_cons.mp hf with rfl | h
    · exact le_refl _
    · cases h
  | cons x t ih =>
    intro b0 hpw f hf haqi
    have hstep : py_min_aqi b0 (x :: t)
        = py_min_aqi (if x.aqi < b0.aqi then x else b0) t := rfl
    rw [List.pairwise_cons] at hpw
    obtain ⟨hb0, hpwx⟩ := hpw
    by_cases hx : x.aqi < b0.aqi
    · rw [hstep, if_pos hx] at haqi ⊢
      rcases List.mem_cons.mp hf with rfl | hf2
      · have hm3 := (py_min_aqi_spec t x).2.2.1
        exact absurd haqi (by have := lt_of_le_of_lt hm3 hx; omega)
      · exact ih x hpwx f hf2 haqi
    · rw [hstep, if_neg hx] at haqi ⊢
      have hpwb : (b0 :: t).Pairwise (fun a b => a.date ≤ b.date) := by
        rw [List.pairwise_cons]
        rw [List.pairwise_cons] at hpwx
        exact ⟨fun y hy => hb0 y (List.mem_cons_of_mem _ hy), hpwx.2⟩
      rcases List.mem_cons.mp hf with rfl | hf2
      · exact ih _ hpwb _ (List.mem_cons_self _ _) haqi
      · rcases List.mem_cons.mp hf2 with rfl | hf3
        · obtain ⟨_, m2, _, _⟩ := py_min_aqi_spec t b0
          rcases m2 with he | hlt
          · rw [he]; exact hb0 f (List.mem_cons_self _ _)
          · have hba := not_lt.mp hx
            exact absurd haqi (by omega)
        · exact ih b0 hpwb f (List.mem_cons_of_mem _ hf3) haqi

lemma suggest_eq_of_ok (parse_date : String → Option Nat) (today : Nat)
    (resp : Option (List RawItem)) (days : Nat) (all_fc : List Forecast)
    (hok : airnow_forecast_zip parse_date today resp = Except.ok all_fc) :
    suggest_best_travel_day parse_date today resp days
      = match window_filter all_fc today (today + days) with
        | [] => Except.error "No forecast entries in the desired look-ahead window."
        | h :: t => Except.ok (h :: t, py_min_aqi h t) := by
  unfold suggest_best_travel_day
  rw [hok]

/-- C6: the window filter of `suggest_best_travel_day` keeps exactly the
merged entries with `today ≤ date ≤ today + horizon` (both ends inclusive);
an empty window raises the terminal error; a non-empty window yields a best
day that attains the minimal AQI of the window, with ties resolved to the
earliest date, and whose date therefore lies within the window. -/
theorem c6_best_day_selection (parse_date : String → Option Nat) (today : Nat)
    (resp : Option (List RawItem)) (days : Nat) (all_fc : List Forecast)
    (hok : airnow_forecast_zip parse_date today resp = Except.ok all_fc) :
    (∀ f, f ∈ window_filter all_fc today (today + days) ↔
      f ∈ all_fc ∧ today ≤ f.date ∧ f.date ≤ today + days) ∧
    (window_filter all_fc today (today + days) = [] →
      suggest_best_travel_day parse_date today resp days
        = Except.error "No forecast entries in the desired look-ahead window.") ∧
    (∀ cand best, suggest_best_travel_day parse_date today resp days
        = Except.ok (cand, best) →
      cand = window_filter all_fc today (today + days) ∧
      best ∈ cand ∧
      (∀ f ∈ cand, best.aqi ≤ f.aqi) ∧
      (∀ f ∈ cand, f.aqi = best.aqi → best.date ≤ f.date) ∧
      today ≤ best.date ∧ best.date ≤ today + days) := by
  have hsorted : all_fc.Pairwise (fun a b => a.date ≤ b.date) := by
    rcases resp with _ | data
    · cases hok
    · dsimp only [airnow_forecast_zip] at hok
      split at hok
      · cases hok
      · cases hok
        exact mergeForecast_sorted _
  refine ⟨?_, ?_, ?_⟩
  · intro f
    unfold window_filter
    rw [List.mem_filter]
    simp
  · intro hemp
    rw [suggest_eq_of_ok parse_date today resp days all_fc hok, hemp]
  · intro cand best hsug
    rw [suggest_eq_of_ok parse_date today resp days all_fc hok] at hsug
    rcases hwin : window_filter all_fc today (today + days) with _ | ⟨h, t⟩
    · rw [hwin] at hsug
      cases hsug
    · rw [hwin] at hsug
      simp only [Except.ok.injEq, Prod.mk.injEq] at hsug
      obtain ⟨hcand, hbest⟩ := hsug
      subst hcand
      subst hbest
      have hpw : (h :: t).Pairwise (fun a b => a.date ≤ b.date) := by
        rw [← hwin]
        unfold window_filter
        exact List.Pairwise.sublist (List.filter_sublist _) hsorted
      obtain ⟨m1, _, m3, m4⟩ := py_min_aqi_spec t h
      have hbmem : py_min_aqi h t ∈ window_filter all_fc today (today + days) := by
        rw [hwin]; exact m1
      have hbwin := List.mem_filter.mp hbmem
      refine ⟨rfl, m1, ?_, ?_, ?_, ?_⟩
      · intro f hf
        rcases List.mem_cons.mp hf with rfl | hf2
        · exact m3
        · exact m4 f hf2
      · exact py_min_aqi_earliest t h hpw
      · have := hbwin.2
        simp only [Bool.and_eq_true, decide_eq_true_eq] at this
        exact this.1
      · have := hbwin.2
        simp only [Bool.and_eq_true, decide_eq_true_eq] at this
        exact this.2

/-- Witness date parser: two parseable date strings. -/
def c6Parse : String → Option Nat := fun s =>
  if s = "d11" then some 11 else if s = "d12" then some 12 else none

def c6Items : List RawItem :=
  [⟨some "d11", none, some 30, some "Moderate", some "O3"⟩,
   ⟨some "d12", none, some 20, some "Good", some "PM2.5"⟩]

def c6All : List Forecast :=
  [⟨11, 30, "Moderate", "O3"⟩, ⟨12, 20, "Good", "PM2.5"⟩]

def c6Best : Forecast := ⟨12, 20, "Good", "PM2.5"⟩

theorem c6_best_day_selection_witness :
    c6Best ∈ c6All ∧ 10 ≤ c6Best.date ∧ c6Best.date ≤ 10 + 3 := by
  have h := (c6_best_day_selection c6Parse 10 (some c6Items) 3 c6All (by rfl)).2.2
    c6All c6Best (by rfl)
  exact ⟨h.2.1, h.2.2.2.2.1, h.2.2.2.2.2⟩

/-- C10: a raw forecast item whose date string is missing or unparseable is
not discarded: it is assigned today's date, which always lies inside the
inclusive selection window `[today, today + horizon]`, and when the item is
in the payload it participates in the worst-case merge for today's date (the
merged entry for today has at least its AQI, and equals it when it wins). -/
theorem c10_unparseable_date_defaults_today (parse_date : String → Option Nat)
    (today : Nat) (it : RawItem) (data : List RawItem) (horizon : Nat)
    (hbad : ∀ s, pyOrOpt it.dateForecast it.dateIssue = some s →
      parse_date (String.mk (s.toList.takeWhile (fun c => c ≠ 'T'))) = none) :
    item_date parse_date today it = today ∧
    today ≤ item_date parse_date today it ∧
    item_date parse_date today it ≤ today + horizon ∧
    (it ∈ data →
      ∃ e ∈ mergeForecast (parse_forecast_days parse_date today data),
        e.date = today ∧ it.aqi.getD 0 ≤ e.aqi) := by
  have hd : item_date parse_date today it = today := by
    unfold item_date
    rcases hpo : pyOrOpt it.dateForecast it.dateIssue with _ | s
    · rfl
    · dsimp only []
      rw [hbad s hpo]
  refine ⟨hd, le_of_eq hd.symm, by rw [hd]; omega, ?_⟩
  intro hmem
  have hentry : (⟨item_date parse_date today it, it.aqi.getD 0,
      it.categoryName.getD "Unknown", it.parameterName.getD "Unknown"⟩ : Forecast)
      ∈ parse_forecast_days parse_date today data := by
    unfold parse_forecast_days
    exact List.mem_map_of_mem _ hmem
  obtain ⟨g, h1, h2⟩ := by_date_dominates _ _ hentry
  refine ⟨g, (mem_mergeForecast _ g).mpr ⟨_, h1⟩, ?_, h2⟩
  have hgd := (viewD_date _ _ _ h1).1
  rw [hgd]
  exact hd

/-- Witness parser: only the well-formed date string parses. -/
def c10Parse : String → Option Nat := fun s => if s = "2025-01-01" then some 5 else none

/-- An item with an unparseable date string and the largest AQI. -/
def c10It : RawItem := ⟨some "garbage", none, some 99, none, none⟩

def c10It2 : RawItem := ⟨some "2025-01-01", none, some 3, some "Good", some "O3"⟩

def c10Data : List RawItem := [c10It, c10It2]

theorem c10_unparseable_date_defaults_today_witness :
    item_date c10Parse 10 c10It = 10 ∧
    item_date c10Parse 10 c10It ≤ 10 + 3 ∧
    (⟨10, 99, "Unknown", "Unknown"⟩ : Forecast)
      ∈ mergeForecast (parse_forecast_days c10Parse 10 c10Data) := by
  have h := c10_unparseable_date_defaults_today c10Parse 10 c10It c10Data 3 ?hbad
  case hbad =>
    intro s hs
    have hs2 : some "garbage" = some s := hs
    injection hs2 with hs3
    rw [← hs3]
    rfl
  exact ⟨h.1, h.2.2.1, by decide⟩
